import Mathlib

/-!
# Verification of the omega-add-on crawl-and-ingest engine

Shallow embedding of the scraper addon (src/addon.js, with the near-identical
mongoose variant in src/unnamed/part_000) and proofs of the spec's claims.

The JavaScript program is embedded as follows:
* strings at the byte level where the source works on bytes
  (`Buffer.from(videoUrl).toString('base64')` is `encodeBytes` over the
  UTF-8 bytes of the string);
* the headless browser is a navigation oracle `String → Except String RawPage`
  (`page.goto` + `page.evaluate` succeed with the raw DOM data or fail with a
  cause); console/log and resource lifecycle effects are an event trace `Ev`;
* the MongoDB collection is an in-memory list of `Entry` records, with
  `updateOne (upsert: true)` embedded as replace-first-match-or-append;
* the recursive `scrapeSite` walk is realized as a depth-first worklist
  (`scrapeWalk`), which visits, upserts and recurses in exactly the order of
  the source's recursion and threads the same shared visited set.
-/

/-! ## Base64 (Buffer.prototype.toString('base64'), src/addon.js line 104) -/

/-- The standard base64 alphabet used by Node's `Buffer.toString('base64')`. -/
def b64Alphabet : List Char :=
  "ABCDEFGHIJKLMNOPQRSTUVWXYZabcdefghijklmnopqrstuvwxyz0123456789+/".data

/-- Character for a six-bit group. Sextets produced from bytes are `< 64`,
so the default is never reached on valid input. -/
def b64Char (n : Nat) : Char := b64Alphabet.getD n 'A'

/-- Index of a character in the base64 alphabet, `none` for non-alphabet
characters (such as the `'='` pad). -/
def b64Val (c : Char) : Option Nat :=
  if c ∈ b64Alphabet then some (b64Alphabet.indexOf c) else none

/-- Standard base64 of a byte sequence, with `'='` padding, as produced by
`Buffer.from(videoUrl).toString('base64')`. -/
def encodeBytes : List Nat → List Char
  | [] => []
  | [a] => [b64Char (a / 4), b64Char (a % 4 * 16), '=', '=']
  | [a, b] => [b64Char (a / 4), b64Char (a % 4 * 16 + b / 16), b64Char (b % 16 * 4), '=']
  | a :: b :: c :: rest =>
    b64Char (a / 4) :: b64Char (a % 4 * 16 + b / 16) :: b64Char (b % 16 * 4 + c / 64) ::
      b64Char (c % 64) :: encodeBytes rest

/-- Base64 decoder, a left inverse of `encodeBytes` used to establish that the
encoding is injective. -/
def decodeB64 : List Char → Option (List Nat)
  | [] => some []
  | w :: x :: y :: z :: rest =>
    match b64Val w, b64Val x with
    | some s1, some s2 =>
      if y = '=' then
        if z = '=' ∧ rest = [] then some [s1 * 4 + s2 / 16] else none
      else
        match b64Val y with
        | some s3 =>
          if z = '=' then
            if rest = [] then some [s1 * 4 + s2 / 16, s2 % 16 * 16 + s3 / 4] else none
          else
            match b64Val z with
            | some s4 =>
              (decodeB64 rest).map
                (fun tl => (s1 * 4 + s2 / 16) :: (s2 % 16 * 16 + s3 / 4) :: (s3 % 4 * 64 + s4) :: tl)
            | none => none
        | none => none
    | _, _ => none
  | _ => none

/-! ## UTF-8 bytes of a string (`Buffer.from` on a JS string) -/

/-- UTF-8 encoding of a single code point. -/
def utf8CharBytes (c : Char) : List Nat :=
  if c.toNat < 128 then [c.toNat]
  else if c.toNat < 2048 then [192 + c.toNat / 64, 128 + c.toNat % 64]
  else if c.toNat < 65536 then
    [224 + c.toNat / 4096, 128 + c.toNat / 64 % 64, 128 + c.toNat % 64]
  else
    [240 + c.toNat / 262144, 128 + c.toNat / 4096 % 64, 128 + c.toNat / 64 % 64,
      128 + c.toNat % 64]

/-- UTF-8 encoding of a character sequence. -/
def utf8BytesL : List Char → List Nat
  | [] => []
  | c :: cs => utf8CharBytes c ++ utf8BytesL cs

/-- UTF-8 bytes of a string, the byte sequence `Buffer.from(s)` holds. -/
def utf8Bytes (s : String) : List Nat := utf8BytesL s.data

/-- Entry identity derivation, src/addon.js line 104:
`const entryId = Buffer.from(videoUrl).toString('base64')`. -/
def entryId (u : String) : String := String.mk (encodeBytes (utf8Bytes u))

/-! ## In-page extraction (src/addon.js lines 59–77, `page.evaluate` body) -/

/-- An element matched by `querySelectorAll('a[href], iframe[src]')`, carrying
its DOM-resolved absolute URL (`el.href` resp. `el.src`), in document order. -/
inductive DomElem where
  | a (href : String)
  | iframe (src : String)
deriving DecidableEq

/-- The rendered page as the in-page script sees it: `document.title`, the
optional contents of the two meta tags (`none` when the tag is absent,
`some ""` when present but empty — both are falsy in JS), the matched
elements, and `location.origin`. -/
structure RawPage where
  title : String
  metaDescription : Option String
  ogImage : Option String
  elems : List DomElem
  origin : String
deriving DecidableEq

/-- `el.href || el.src`. -/
def elemUrl : DomElem → String
  | .a h => h
  | .iframe s => s

/-- Whether the element came from the `a[href]` selector. -/
def elemIsAnchor : DomElem → Bool
  | .a _ => true
  | .iframe _ => false

/-- Lower-cased character sequence of a string. -/
def lowerStr (s : String) : List Char := s.data.map Char.toLower

/-- `/\.(mp4|m3u8|avi|mov)$/i.test(link)`. -/
def hasMediaExt (l : String) : Bool :=
  ".mp4".data.isSuffixOf (lowerStr l) || ".m3u8".data.isSuffixOf (lowerStr l) ||
    ".avi".data.isSuffixOf (lowerStr l) || ".mov".data.isSuffixOf (lowerStr l)

/-- Whether `pat` occurs as a contiguous subsequence of `s`. -/
def containsSeq (pat s : List Char) : Bool := decide (pat <:+: s)

/-- `/vidstream|dood|streamsb|streamtape/.test(link)` (case-sensitive). -/
def hasStreamHost (l : String) : Bool :=
  containsSeq "vidstream".data l.data || containsSeq "dood".data l.data ||
    containsSeq "streamsb".data l.data || containsSeq "streamtape".data l.data

/-- The media-link filter of src/addon.js line 64. -/
def isMediaLink (l : String) : Bool := hasMediaExt l || hasStreamHost l

/-- `href.startsWith(pre)` at the character level. -/
def startsWithStr (s pre : String) : Bool := pre.data.isPrefixOf s.data

/-- What `fetchPageData` returns to the walker on success. -/
structure PageData where
  title : String
  description : String
  image : String
  videos : List String
  subLinks : List String
deriving DecidableEq

/-- `getContent`: `document.querySelector(sel)?.content || 'No Data'` — both a
missing tag and an empty (falsy) content yield the sentinel. -/
def getContent (m : Option String) : String :=
  match m with
  | none => "No Data"
  | some s => if s = "" then "No Data" else s

/-- The `page.evaluate` extraction, src/addon.js lines 59–77: title with the
`'No Title'` sentinel, the two meta contents with the `'No Data'` sentinel,
media links from all matched elements, and sub-links = anchor hrefs that pass
`href.startsWith(location.origin)`. -/
def extract (p : RawPage) : PageData :=
  { title := if p.title = "" then "No Title" else p.title
    description := getContent p.metaDescription
    image := getContent p.ogImage
    videos := (p.elems.map elemUrl).filter isMediaLink
    subLinks := ((p.elems.filter elemIsAnchor).map elemUrl).filter
      (fun h => startsWithStr h p.origin) }

/-! ## Entry store (MongoDB collection `scraped_entries`) -/

/-- One persisted record, fields in the order written by the `$set` document of
src/addon.js line 107. -/
structure Entry where
  catalogId : String
  id : String
  name : String
  description : String
  poster : String
  videoUrl : String
deriving DecidableEq

/-- The persistent entry store. -/
abbrev Store := List Entry

/-- `updateOne({ id, catalogId }, { $set: {...} }, { upsert: true })`
(src/addon.js lines 105–109): overwrite every field of the first record
matching the compound key, or append a new record when none matches. -/
def upsertEntry (catalogId eid nm ds ps vu : String) : Store → Store
  | [] => [⟨catalogId, eid, nm, ds, ps, vu⟩]
  | e :: rest =>
    if e.id == eid && e.catalogId == catalogId then
      ⟨catalogId, eid, nm, ds, ps, vu⟩ :: rest
    else
      e :: upsertEntry catalogId eid nm ds ps vu rest

/-- Number of records in the store matching a compound key. -/
def countKey (s : Store) (catalogId eid : String) : Nat :=
  (s.filter fun e => e.id == eid && e.catalogId == catalogId).length

/-! ## Events: logging and resource lifecycle -/

/-- Observable effects of a crawl: acquiring/releasing a per-page rendering
context (`browser.newPage()` / `page.close()`), the logged fetch failure with
its URL and cause (`console.error` in the catch block), the per-page
`console.log`, and the browser-capability lifecycle of a refresh cycle. -/
inductive Ev where
  | pageOpen (url : String)
  | pageClose (url : String)
  | fetchError (url cause : String)
  | scrapeLog (url : String)
  | browserLaunch
  | browserClose
deriving DecidableEq

/-- The URLs of the pages actually fetched, in fetch order. -/
def fetchedUrls (evs : List Ev) : List String :=
  evs.filterMap fun e =>
    match e with
    | .pageOpen u => some u
    | _ => none

/-- Number of rendering contexts acquired in a trace. -/
def countOpens (evs : List Ev) : Nat :=
  evs.countP fun e =>
    match e with
    | .pageOpen _ => true
    | _ => false

/-- Number of rendering contexts released in a trace. -/
def countCloses (evs : List Ev) : Nat :=
  evs.countP fun e =>
    match e with
    | .pageClose _ => true
    | _ => false

/-! ## Page fetcher (src/addon.js lines 52–87) -/

/-- `fetchPageData(url, browser)`: acquire a fresh rendering context, navigate
and run the in-page extraction through the navigation oracle `nav`; on
success close the context and return the extracted data, on any
navigation/evaluation error log the URL and cause, close the context and
return `none` (the source's `return null`).  The user-agent rotation of
line 54 selects among fixed strings and has no observable effect here. -/
def fetchPageData (nav : String → Except String RawPage) (url : String) :
    Option PageData × List Ev :=
  match nav url with
  | .ok raw => (some (extract raw), [Ev.pageOpen url, Ev.pageClose url])
  | .error c => (none, [Ev.pageOpen url, Ev.fetchError url c, Ev.pageClose url])

/-! ## Page graph: the finite world a crawl runs against -/

/-- A registered site, the `{ url, id: catalogId }` objects of the source. -/
structure Site where
  url : String
  id : String
deriving DecidableEq

/-- A finite page graph: each URL maps to the raw page served there or to the
navigation failure cause raised there.  URLs outside the graph fail to
resolve. -/
abbrev Graph := List (String × Except String RawPage)

/-- The navigation oracle induced by a page graph. -/
def navOf (g : Graph) : String → Except String RawPage := fun url =>
  match g.find? (fun p => p.1 == url) with
  | some p => p.2
  | none => Except.error "net::ERR_NAME_NOT_RESOLVED"

/-- URLs of the graph whose navigation succeeds. -/
def okUrls (g : Graph) : List String :=
  g.filterMap fun p =>
    match p.2 with
    | .ok _ => some p.1
    | .error _ => none

/-- The successfully served pages of a graph. -/
def okPages (g : Graph) : List RawPage :=
  g.filterMap fun p =>
    match p.2 with
    | .ok raw => some raw
    | .error _ => none

/-- Termination measure for the walk: resolvable URLs not yet visited. -/
def unvisited (g : Graph) (visited : List String) : Nat :=
  ((okUrls g).filter fun u => decide (u ∉ visited)).length

/-! ### Termination facts for the walker

The walk is bounded because every successful fetch moves a resolvable URL
into the visited set; these lemmas justify the lexicographic measure
`(unvisited g visited, pending.length)`. -/

theorem length_filter_mono {α : Type} {p q : α → Bool} (l : List α)
    (h : ∀ a, q a = true → p a = true) :
    (l.filter q).length ≤ (l.filter p).length := by
  induction l with
  | nil => simp
  | cons x t ih =>
    by_cases hq : q x = true
    · simp [List.filter_cons, hq, h x hq]
      omega
    · simp only [List.filter_cons]
      rw [Bool.not_eq_true] at hq
      simp only [hq, cond_false]
      by_cases hp : p x = true
      · simp [hp]
        omega
      · rw [Bool.not_eq_true] at hp
        simp [hp]
        exact ih

theorem length_filter_lt {α : Type} {p q : α → Bool} (l : List α) (a : α)
    (ha : a ∈ l) (hpa : p a = true) (hqa : q a = false)
    (h : ∀ x, q x = true → p x = true) :
    (l.filter q).length < (l.filter p).length := by
  induction l with
  | nil => cases ha
  | cons x t ih =>
    rcases List.mem_cons.mp ha with rfl | hat
    · simp only [List.filter_cons, hpa, hqa, cond_true, cond_false, List.length_cons]
      exact Nat.lt_succ_of_le (length_filter_mono t h)
    · by_cases hq : q x = true
      · simp only [List.filter_cons, hq, h x hq, cond_true, List.length_cons]
        exact Nat.succ_lt_succ (ih hat)
      · rw [Bool.not_eq_true] at hq
        simp only [List.filter_cons, hq, cond_false]
        by_cases hp : p x = true
        · simp only [hp, cond_true, List.length_cons]
          exact Nat.lt_succ_of_lt (ih hat)
        · rw [Bool.not_eq_true] at hp
          simp only [hp, cond_false]
          exact ih hat

theorem unvisited_cons_le (g : Graph) (url : String) (visited : List String) :
    unvisited g (url :: visited) ≤ unvisited g visited := by
  apply length_filter_mono
  intro a ha
  simp only [decide_eq_true_eq, List.mem_cons, not_or] at ha ⊢
  exact ha.2

theorem unvisited_cons_lt (g : Graph) (url : String) (visited : List String)
    (hmem : url ∈ okUrls g) (hnv : url ∉ visited) :
    unvisited g (url :: visited) < unvisited g visited := by
  apply length_filter_lt (okUrls g) url hmem
  · simp [hnv]
  · simp
  · intro x hx
    simp only [decide_eq_true_eq, List.mem_cons, not_or] at hx ⊢
    exact hx.2

theorem fetch_ok_mem_okUrls (g : Graph) (url : String) (d : PageData) (evs : List Ev)
    (h : fetchPageData (navOf g) url = (some d, evs)) : url ∈ okUrls g := by
  unfold fetchPageData at h
  rcases hn : navOf g url with c | raw
  · rw [hn] at h
    simp at h
  · unfold navOf at hn
    rcases hf : g.find? (fun p => p.1 == url) with _ | p
    · rw [hf] at hn
      simp at hn
    · rw [hf] at hn
      have hn2 : p.2 = Except.ok raw := hn
      have hmem := List.mem_of_find?_eq_some hf
      have hbeq := List.find?_some hf
      simp only [beq_iff_eq] at hbeq
      unfold okUrls
      apply List.mem_filterMap.mpr
      refine ⟨p, hmem, ?_⟩
      rw [hn2, hbeq]

/-! ## Crawl walker (src/addon.js lines 90–115, `scrapeSite`) -/

/-- The recursive `scrapeSite(site, browser, visited)` walk, realized as a
depth-first worklist.  `pending` holds the URLs still to be processed in
visit order; the source's recursion `for (const subLink of subLinks) await
scrapeSite({url: subLink, id: catalogId}, browser, visited)` corresponds to
pushing `subLinks` in front of the remaining work, which preserves the
source's depth-first, strictly sequential visit and upsert order and its
single shared visited set.  Per pending URL: if already visited, return
(line 93); otherwise mark visited (line 94), log (line 96), fetch (line 98);
on `null` continue (line 99); on data, upsert every discovered video link
under the originating `catalogId` (lines 103–110) and recurse into the
page's sub-links (lines 112–114).  Returns the final visited set, the final
store, and the emitted event trace.  Totality — the termination the spec
promises — is established by the lexicographic measure
`(unvisited g visited, pending.length)`. -/
def scrapeWalk (g : Graph) (catalogId : String) (pending visited : List String)
    (store : Store) : List String × Store × List Ev :=
  match pending with
  | [] => (visited, store, [])
  | url :: rest =>
    if hv : url ∈ visited then
      scrapeWalk g catalogId rest visited store
    else
      match hf : fetchPageData (navOf g) url with
      | (none, evs) =>
        let r := scrapeWalk g catalogId rest (url :: visited) store
        (r.1, r.2.1, (Ev.scrapeLog url :: evs) ++ r.2.2)
      | (some data, evs) =>
        let store1 := data.videos.foldl (fun s v =>
          upsertEntry catalogId (entryId v) data.title data.description data.image v s) store
        let r := scrapeWalk g catalogId (data.subLinks ++ rest) (url :: visited) store1
        (r.1, r.2.1, (Ev.scrapeLog url :: evs) ++ r.2.2)
termination_by (unvisited g visited, pending.length)
decreasing_by
  · apply Prod.Lex.right
    simp
  · rcases Nat.lt_or_ge (unvisited g (url :: visited)) (unvisited g visited) with hlt | hge
    · exact Prod.Lex.left _ _ hlt
    · have heq : unvisited g (url :: visited) = unvisited g visited :=
        Nat.le_antisymm (unvisited_cons_le g url visited) hge
      rw [heq]
      apply Prod.Lex.right
      simp
  · exact Prod.Lex.left _ _
      (unvisited_cons_lt g url visited (fetch_ok_mem_okUrls g url data evs hf) hv)

/-- `scrapeSite(site, browser)` at the top level: seed URL, fresh visited set. -/
def scrapeSite (g : Graph) (site : Site) (store : Store) :
    List String × Store × List Ev :=
  scrapeWalk g site.id [site.url] [] store

/-! ### Unfolding equations for the walker -/

theorem scrapeWalk_nil (g : Graph) (cid : String) (visited : List String) (store : Store) :
    scrapeWalk g cid [] visited store = (visited, store, []) := by
  rw [scrapeWalk.eq_def]

theorem scrapeWalk_visited (g : Graph) (cid url : String) (rest visited : List String)
    (store : Store) (h : url ∈ visited) :
    scrapeWalk g cid (url :: rest) visited store = scrapeWalk g cid rest visited store := by
  rw [scrapeWalk.eq_def]
  simp [h]

theorem scrapeWalk_fail (g : Graph) (cid url : String) (rest visited : List String)
    (store : Store) (evs : List Ev) (h : url ∉ visited)
    (hf : fetchPageData (navOf g) url = (none, evs)) :
    scrapeWalk g cid (url :: rest) visited store =
      ((scrapeWalk g cid rest (url :: visited) store).1,
       (scrapeWalk g cid rest (url :: visited) store).2.1,
       (Ev.scrapeLog url :: evs) ++ (scrapeWalk g cid rest (url :: visited) store).2.2) := by
  conv_lhs => rw [scrapeWalk.eq_def]
  simp only [h, dite_false, dif_neg, not_false_iff]
  rw [hf]

theorem scrapeWalk_ok (g : Graph) (cid url : String) (rest visited : List String)
    (store : Store) (data : PageData) (evs : List Ev) (h : url ∉ visited)
    (hf : fetchPageData (navOf g) url = (some data, evs)) :
    scrapeWalk g cid (url :: rest) visited store =
      ((scrapeWalk g cid (data.subLinks ++ rest) (url :: visited)
          (data.videos.foldl (fun s v =>
            upsertEntry cid (entryId v) data.title data.description data.image v s) store)).1,
       (scrapeWalk g cid (data.subLinks ++ rest) (url :: visited)
          (data.videos.foldl (fun s v =>
            upsertEntry cid (entryId v) data.title data.description data.image v s) store)).2.1,
       (Ev.scrapeLog url :: evs) ++
         (scrapeWalk g cid (data.subLinks ++ rest) (url :: visited)
          (data.videos.foldl (fun s v =>
            upsertEntry cid (entryId v) data.title data.description data.image v s) store)).2.2) := by
  conv_lhs => rw [scrapeWalk.eq_def]
  simp only [h, dite_false, dif_neg, not_false_iff]
  rw [hf]

/-! ## Refresh orchestrator (src/addon.js lines 118–128, `refreshScraping`) -/

/-- `refreshScraping()`: launch one browser for the whole cycle, run
`scrapeSite(site, browser)` sequentially for every registered site — each
with its own fresh visited set — then close the browser.  Returns the final
store and the cycle's event trace. -/
def refreshScraping (g : Graph) (sites : List Site) (store : Store) : Store × List Ev :=
  let r := sites.foldl (fun acc site =>
    let w := scrapeSite g site acc.1
    (w.2.1, acc.2 ++ w.2.2)) (store, ([] : List Ev))
  (r.1, Ev.browserLaunch :: r.2 ++ [Ev.browserClose])

/-! ## URL parsing (the `new URL(url)` calls of the source) -/

/-- Split a character sequence at the first occurrence of `"://"`. -/
def splitScheme : List Char → Option (List Char × List Char)
  | [] => none
  | ':' :: '/' :: '/' :: rest => some ([], rest)
  | c :: rest => (splitScheme rest).map (fun p => (c :: p.1, p.2))

/-- Outcome of `new URL(u).hostname` (src/addon.js line 202): the constructor
throws (`invalid`), it succeeds and yields this hostname (`host h`), or the
input lies outside the fragment of the WHATWG URL standard embedded here
(`unmodeled`) — about those inputs the model asserts nothing. -/
inductive HostParse where
  | invalid
  | host (h : String)
  | unmodeled
deriving DecidableEq

/-- C0 control or space — trimmed from both ends of the input URL. -/
def isC0OrSpace (c : Char) : Bool := c.toNat ≤ 32

/-- ASCII tab or newline — removed everywhere in the input URL. -/
def isTabOrNewline (c : Char) : Bool := c == '\t' || c == '\n' || c == '\r'

/-- The WHATWG input preprocessing: trim leading/trailing C0 controls and
spaces, then remove every tab and newline. -/
def preprocessUrl (l : List Char) : List Char :=
  (((l.dropWhile isC0OrSpace).reverse.dropWhile isC0OrSpace).reverse).filter
    (fun c => !isTabOrNewline c)

/-- Split a character sequence at the first `':'`. -/
def splitAtColon : List Char → Option (List Char × List Char)
  | [] => none
  | ':' :: rest => some ([], rest)
  | c :: rest => (splitAtColon rest).map (fun p => (c :: p.1, p.2))

/-- A URL scheme: an ASCII letter followed by letters, digits, `+`, `-`, `.`.
Anything else before the first `':'` (or a missing `':'`) makes the
constructor throw, since no base URL is ever supplied in the source. -/
def validScheme : List Char → Bool
  | [] => false
  | c :: rest =>
    c.isAlpha && rest.all (fun d => d.isAlphanum || d == '+' || d == '-' || d == '.')

/-- Lower-case a character sequence. -/
def lowerChars (l : List Char) : List Char := l.map Char.toLower

/-- The special schemes of the WHATWG standard, `file` excepted (`file:`
URLs are left unmodeled). -/
def specialSchemes : List (List Char) :=
  ["http".data, "https".data, "ws".data, "wss".data, "ftp".data]

/-- The part of the authority after the last `'@'` — the authority state
treats everything up to the last `'@'` as userinfo. -/
def afterLastAt (l : List Char) : List Char :=
  (l.reverse.takeWhile (fun c => !(c == '@'))).reverse

/-- Whether the authority carries userinfo. -/
def hasAt (l : List Char) : Bool := l.any (fun c => c == '@')

/-- Numeric value of a digit sequence. -/
def digitsToNat (l : List Char) : Nat := l.foldl (fun n c => n * 10 + (c.toNat - 48)) 0

/-- A port is valid when it is empty or all digits with value at most 65535;
otherwise the constructor throws. -/
def validPort (l : List Char) : Bool :=
  l.all Char.isDigit && (l.isEmpty || digitsToNat l ≤ 65535)

/-- Forbidden host code points (for a domain additionally C0 controls and
DEL): a host containing one makes the constructor throw.  `/ \ ? #` never
reach the host — they terminate the authority — and `:` starts the port. -/
def forbiddenHostChar (c : Char) : Bool :=
  c.toNat < 32 || c.toNat == 127 || c == ' ' || c == '#' || c == '/' || c == ':' ||
    c == '<' || c == '>' || c == '?' || c == '@' || c == '[' || c == '\\' ||
    c == ']' || c == '^' || c == '|'

/-- Characters on which domain/opaque-host resolution is the identity (up to
lower-casing for domains): ASCII letters, digits, `.`, `-`, `_`.  Other
permitted characters exist but are left unmodeled. -/
def safeDomainChar (c : Char) : Bool :=
  c.isAlpha || c.isDigit || c == '.' || c == '-' || c == '_'

/-- Split a host into its dot-separated labels. -/
def splitOnDot : List Char → List (List Char)
  | [] => [[]]
  | '.' :: rest => [] :: splitOnDot rest
  | c :: rest =>
    match splitOnDot rest with
    | [] => [[c]]
    | l :: ls => (c :: l) :: ls

/-- ASCII hex digit. -/
def isHexDigitCh (c : Char) : Bool :=
  c.isDigit || (97 ≤ c.toNat && c.toNat ≤ 102) || (65 ≤ c.toNat && c.toNat ≤ 70)

/-- The standard's IPv4-number shapes: all digits, or `0x`/`0X` plus hex
digits. -/
def isNumberLabel (l : List Char) : Bool :=
  (!l.isEmpty && l.all Char.isDigit) ||
    (match l with
     | '0' :: 'x' :: rest => rest.all isHexDigitCh
     | '0' :: 'X' :: rest => rest.all isHexDigitCh
     | _ => false)

/-- The ends-in-a-number check that routes a special-scheme host into IPv4
parsing (a transformation left unmodeled here). -/
def endsInNumber (host : List Char) : Bool :=
  let parts := splitOnDot host
  let parts2 := if parts.getLast? = some [] then parts.dropLast else parts
  match parts2.getLast? with
  | none => false
  | some lastPart => isNumberLabel lastPart

/-- Whether some label is a punycode (`xn--`) label, whose IDNA processing
is left unmodeled. -/
def hasPunycodeLabel (host : List Char) : Bool :=
  (splitOnDot host).any (fun l =>
    match lowerChars l with
    | 'x' :: 'n' :: '-' :: '-' :: _ => true
    | _ => false)

/-- Whether the host has an empty dot-separated label (leading, trailing or
doubled dot) — left unmodeled. -/
def hasEmptyLabel (host : List Char) : Bool := (splitOnDot host).any List.isEmpty

/-- Host resolution for a special scheme: an empty host or a forbidden code
point throws; percent signs, non-ASCII, unusual ASCII, empty or punycode
labels and IPv4-shaped hosts are left unmodeled (they trigger
percent-decoding, IDNA or IPv4 parsing); plain hosts resolve to their
lower-case form. -/
def parseDomainHost (hostStr : List Char) : HostParse :=
  if hostStr.isEmpty then .invalid
  else if hostStr.any forbiddenHostChar then .invalid
  else if hostStr.any (fun c => c == '%' || 128 ≤ c.toNat) then .unmodeled
  else if !hostStr.all safeDomainChar then .unmodeled
  else if hasEmptyLabel hostStr || hasPunycodeLabel hostStr || endsInNumber hostStr then
    .unmodeled
  else .host (String.mk (lowerChars hostStr))

/-- Host resolution for a non-special scheme (opaque host): a forbidden code
point throws; percent signs, non-ASCII and unusual ASCII are left unmodeled;
otherwise the host is kept verbatim — opaque hosts are not lower-cased. -/
def parseOpaqueHost (hostStr : List Char) : HostParse :=
  if hostStr.any forbiddenHostChar then .invalid
  else if hostStr.any (fun c => c == '%' || 128 ≤ c.toNat) then .unmodeled
  else if !hostStr.all safeDomainChar then .unmodeled
  else .host (String.mk hostStr)

/-- The authority state: strip userinfo (an `'@'` directly before the
terminator throws), leave IPv6 literals unmodeled, validate the port, then
resolve the host. -/
def parseAuthority (special : Bool) (auth : List Char) : HostParse :=
  let hostPort := afterLastAt auth
  if hasAt auth && hostPort.isEmpty then .invalid
  else if hostPort.head? = some '[' then .unmodeled
  else
    match splitAtColon hostPort with
    | none => if special then parseDomainHost hostPort else parseOpaqueHost hostPort
    | some (hostStr, portStr) =>
      if !validPort portStr then .invalid
      else if special then parseDomainHost hostStr else parseOpaqueHost hostStr

/-- `new URL(u).hostname` on the embedded WHATWG fragment.  After
preprocessing, the scheme is read (none ⇒ throw, no base URL exists in the
source).  A special scheme skips any run of slashes and parses the authority
up to `/ \ ? #` as host (`https:example.com` and `https://example.com` agree,
userinfo is stripped, an empty host throws).  `file:` is unmodeled.  A
non-special scheme followed by `//` parses an opaque-host authority up to
`/ ? #`; without `//` the URL has an opaque path and its hostname is `""`
(e.g. `mailto:foo`). -/
def urlHostname (u : String) : HostParse :=
  match splitAtColon (preprocessUrl u.data) with
  | none => .invalid
  | some (scheme, rest) =>
    if !validScheme scheme then .invalid
    else if lowerChars scheme = "file".data then .unmodeled
    else if lowerChars scheme ∈ specialSchemes then
      parseAuthority true
        ((rest.dropWhile (fun c => c == '/' || c == '\\')).takeWhile
          (fun c => !(c == '/' || c == '\\' || c == '?' || c == '#')))
    else
      match rest with
      | '/' :: '/' :: rest2 =>
        parseAuthority false
          (rest2.takeWhile (fun c => !(c == '/' || c == '?' || c == '#')))
      | _ => .host ""

/-- `location.origin` / the scheme+host+port origin of a URL string:
everything up to the end of the authority.  Used to state what a
*same-origin* link actually is. -/
def urlOrigin (u : String) : String :=
  match splitScheme u.data with
  | none => u
  | some (scheme, rest) =>
    String.mk (scheme ++ ':' :: '/' :: '/' ::
      rest.takeWhile fun c => !(c == '/' || c == '?' || c == '#'))

/-- `hostname.replace(/\./g, '-')` (src/addon.js line 202). -/
def dashHost (h : String) : String :=
  String.mk (h.data.map fun c => if c == '.' then '-' else c)

/-! ## Site registration (src/addon.js lines 198–212, `app.post('/add-site')`) -/

/-- The in-memory server state: the dynamic site list and the entry store. -/
structure ServerState where
  sites : List Site
  store : Store
deriving DecidableEq

/-- Outcome of a registration request: the synchronous 400 rejection, the
success response, or an exception escaping the handler (no response is sent
to the client in that case). -/
inductive RegResponse where
  | badRequest (msg : String)
  | ok (catalogId : String)
  | exn (msg : String)
deriving DecidableEq

/-- The `/add-site` handler.  `body` is the request's `url` field (`none`
when absent).  A missing or empty URL (both falsy in JS) is rejected with
`400 { error: 'Missing URL' }`.  Otherwise `new URL(url)` runs: if it
throws, the exception escapes the async handler — no site is added and no
refresh runs.  If it yields a hostname, the catalog id is derived from it,
`{url, id}` is appended to the site list, and a refresh of the WHOLE updated
list runs before the success response.  Returns the response, the new state
and the events of the triggered refresh (empty iff no refresh ran); `none`
when the request URL lies outside the modeled URL fragment. -/
def addSite (g : Graph) (st : ServerState) (body : Option String) :
    Option (RegResponse × ServerState × List Ev) :=
  match body with
  | none => some (.badRequest "Missing URL", st, [])
  | some url =>
    if url = "" then some (.badRequest "Missing URL", st, [])
    else
      match urlHostname url with
      | .unmodeled => none
      | .invalid => some (.exn "Invalid URL", st, [])
      | .host h =>
        let catalogId := "catalog-" ++ dashHost h
        let sites1 := st.sites ++ [⟨url, catalogId⟩]
        let r := refreshScraping g sites1 st.store
        some (.ok catalogId, ⟨sites1, r.1⟩, r.2)

/-! ## Stream and meta handlers (src/addon.js lines 171–193) -/

/-- A stream object of the stream handler's response. -/
structure StreamObj where
  url : String
deriving DecidableEq

/-- The meta object of the meta handler's response (its constant
`type: 'movie'` field is omitted). -/
structure MetaObj where
  id : String
  name : String
  poster : String
  description : String
deriving DecidableEq

/-- `findOne({ id })`: the first record whose `id` matches, ignoring
`catalogId`. -/
def findOneById (s : Store) (qid : String) : Option Entry :=
  s.find? fun e => e.id == qid

/-- `defineStreamHandler`: one stream carrying the stored `videoUrl` when an
entry with the queried id exists, else an empty stream list. -/
def streamHandler (s : Store) (qid : String) : List StreamObj :=
  match findOneById s qid with
  | some e => [⟨e.videoUrl⟩]
  | none => []

/-- `defineMetaHandler`: the stored display metadata when an entry with the
queried id exists, else the empty response `{}`. -/
def metaHandler (s : Store) (qid : String) : Option MetaObj :=
  match findOneById s qid with
  | some e => some ⟨e.id, e.name, e.poster, e.description⟩
  | none => none

/-! ## Concrete test worlds -/

/-- Page served at `https://s.com/a`: one same-origin link to `/b`. -/
def cycPageA : RawPage :=
  { title := "A", metaDescription := some "da", ogImage := some "ia"
    elems := [DomElem.a "https://s.com/b"], origin := "https://s.com" }

/-- Page served at `https://s.com/b`: one same-origin link back to `/a`,
closing the cycle. -/
def cycPageB : RawPage :=
  { title := "B", metaDescription := some "db", ogImage := some "ib"
    elems := [DomElem.a "https://s.com/a"], origin := "https://s.com" }

/-- The two-page cyclic site of the spec's cycle-termination property. -/
def cycGraph : Graph :=
  [("https://s.com/a", Except.ok cycPageA), ("https://s.com/b", Except.ok cycPageB)]

/-- Page served at `https://a.com/`: its only link points at the foreign host
`a.com.evil.net`, whose URL string nevertheless starts with this page's
origin string `https://a.com`. -/
def evilPageA : RawPage :=
  { title := "A", metaDescription := none, ogImage := none
    elems := [DomElem.a "https://a.com.evil.net/x"], origin := "https://a.com" }

/-- The page served at the foreign host. -/
def evilPageX : RawPage :=
  { title := "X", metaDescription := none, ogImage := none
    elems := [], origin := "https://a.com.evil.net" }

/-- A world where the origin-as-string-prefix check of src/addon.js line 68
lets a cross-origin link through. -/
def evilGraph : Graph :=
  [("https://a.com/", Except.ok evilPageA),
   ("https://a.com.evil.net/x", Except.ok evilPageX)]

/-! ## Claim C1: determinism and injectivity of entry identity -/

theorem b64Val_b64Char : ∀ s, s < 64 → b64Val (b64Char s) = some s := by decide

theorem b64Char_ne_pad : ∀ s, s < 64 → ¬ b64Char s = '=' := by decide

theorem decode_encode : ∀ l : List Nat, (∀ b ∈ l, b < 256) →
    decodeB64 (encodeBytes l) = some l
  | [] => fun _ => rfl
  | [a] => fun h => by
    have ha : a < 256 := h a (by simp)
    have e1 := b64Val_b64Char (a / 4) (by omega)
    have e2 := b64Val_b64Char (a % 4 * 16) (by omega)
    simp only [encodeBytes, decodeB64, e1, e2]
    simp
    omega
  | [a, b] => fun h => by
    have ha : a < 256 := h a (by simp)
    have hb : b < 256 := h b (by simp)
    have e1 := b64Val_b64Char (a / 4) (by omega)
    have e2 := b64Val_b64Char (a % 4 * 16 + b / 16) (by omega)
    have e3 := b64Val_b64Char (b % 16 * 4) (by omega)
    have n3 := b64Char_ne_pad (b % 16 * 4) (by omega)
    simp only [encodeBytes, decodeB64, e1, e2, e3, n3]
    simp
    constructor
    · omega
    · omega
  | a :: b :: c :: rest => fun h => by
    have ha : a < 256 := h a (by simp)
    have hb : b < 256 := h b (by simp)
    have hc : c < 256 := h c (by simp)
    have hrest : ∀ x ∈ rest, x < 256 := fun x hx => h x (by simp [hx])
    have e1 := b64Val_b64Char (a / 4) (by omega)
    have e2 := b64Val_b64Char (a % 4 * 16 + b / 16) (by omega)
    have e3 := b64Val_b64Char (b % 16 * 4 + c / 64) (by omega)
    have e4 := b64Val_b64Char (c % 64) (by omega)
    have n3 := b64Char_ne_pad (b % 16 * 4 + c / 64) (by omega)
    have n4 := b64Char_ne_pad (c % 64) (by omega)
    have ih := decode_encode rest hrest
    simp only [encodeBytes, decodeB64, e1, e2, e3, e4, n3, n4, ih]
    simp
    refine ⟨by omega, by omega, by omega⟩

theorem encodeBytes_inj (l1 l2 : List Nat) (h1 : ∀ b ∈ l1, b < 256)
    (h2 : ∀ b ∈ l2, b < 256) (he : encodeBytes l1 = encodeBytes l2) : l1 = l2 := by
  have d1 := decode_encode l1 h1
  have d2 := decode_encode l2 h2
  rw [he, d2] at d1
  exact (Option.some.injEq _ _ ▸ d1).symm

theorem charToNat_lt (c : Char) : c.toNat < 1114112 := by
  rcases c.valid with h | h
  · exact Nat.lt_trans h (by norm_num)
  · exact h.2

theorem utf8CharBytes_lt (c : Char) : ∀ b ∈ utf8CharBytes c, b < 256 := by
  have hn := charToNat_lt c
  unfold utf8CharBytes
  split_ifs <;> intro b hb <;> simp only [List.mem_cons, List.mem_singleton,
    List.not_mem_nil, or_false] at hb <;>
    rcases hb with rfl | rfl | rfl | rfl <;> omega

theorem utf8CharBytes_ne_nil (c : Char) : utf8CharBytes c ≠ [] := by
  unfold utf8CharBytes
  split_ifs <;> exact List.cons_ne_nil _ _

theorem utf8CharBytes_append_inj (c1 c2 : Char) (r1 r2 : List Nat)
    (h : utf8CharBytes c1 ++ r1 = utf8CharBytes c2 ++ r2) : c1 = c2 ∧ r1 = r2 := by
  have hn1 := charToNat_lt c1
  have hn2 := charToNat_lt c2
  have key : c1.toNat = c2.toNat ∧ r1 = r2 := by
    unfold utf8CharBytes at h
    split_ifs at h <;>
      simp only [List.cons_append, List.nil_append, List.cons.injEq] at h <;>
      first
        | exact ⟨h.1, h.2⟩
        | exact ⟨by have e1 := h.1; have e2 := h.2.1; omega, h.2.2⟩
        | exact ⟨by have e1 := h.1; have e2 := h.2.1; have e3 := h.2.2.1; omega, h.2.2.2⟩
        | exact ⟨by have e1 := h.1; have e2 := h.2.1; have e3 := h.2.2.1; have e4 := h.2.2.2.1; omega, h.2.2.2.2⟩
        | exact absurd h.1 (by omega)
  exact ⟨Char.eq_of_val_eq (UInt32.eq_of_val_eq (Fin.eq_of_val_eq key.1)), key.2⟩

theorem utf8BytesL_lt : ∀ l : List Char, ∀ b ∈ utf8BytesL l, b < 256 := by
  intro l
  induction l with
  | nil => simp [utf8BytesL]
  | cons c cs ih =>
    intro b hb
    simp only [utf8BytesL, List.mem_append] at hb
    rcases hb with hb | hb
    · exact utf8CharBytes_lt c b hb
    · exact ih b hb

theorem utf8BytesL_inj : ∀ l1 l2 : List Char, utf8BytesL l1 = utf8BytesL l2 → l1 = l2 := by
  intro l1
  induction l1 with
  | nil =>
    intro l2 h
    cases l2 with
    | nil => rfl
    | cons c cs =>
      exfalso
      simp only [utf8BytesL] at h
      exact utf8CharBytes_ne_nil c (List.append_eq_nil.mp h.symm).1
  | cons c cs ih =>
    intro l2 h
    cases l2 with
    | nil =>
      exfalso
      simp only [utf8BytesL] at h
      exact utf8CharBytes_ne_nil c (List.append_eq_nil.mp h).1
    | cons d ds =>
      simp only [utf8BytesL] at h
      obtain ⟨hc, hr⟩ := utf8CharBytes_append_inj c d _ _ h
      rw [hc, ih ds hr]

theorem entryId_inj (u1 u2 : String) (h : entryId u1 = entryId u2) : u1 = u2 := by
  unfold entryId at h
  have hdata : encodeBytes (utf8Bytes u1) = encodeBytes (utf8Bytes u2) :=
    congrArg String.data h
  have hbytes : utf8Bytes u1 = utf8Bytes u2 :=
    encodeBytes_inj _ _ (utf8BytesL_lt u1.data) (utf8BytesL_lt u2.data) hdata
  have hchars : u1.data = u2.data := utf8BytesL_inj _ _ hbytes
  exact congrArg String.mk hchars

/-- C1: deriving `entryId` from a media URL is deterministic (the same URL
always yields the same id) and injective (distinct URLs yield distinct ids):
base64 over the URL's UTF-8 bytes is left-invertible. -/
theorem entryId_deterministic_and_injective :
    (∀ u : String, entryId u = entryId u) ∧
    ∀ u1 u2 : String, u1 ≠ u2 → entryId u1 ≠ entryId u2 :=
  ⟨fun _ => rfl, fun u1 u2 hne he => hne (entryId_inj u1 u2 he)⟩

/-- Witness for C1 at two concrete distinct media URLs. -/
theorem entryId_deterministic_and_injective_witness :
    "https://example.com/a.mp4" ≠ "https://example.com/b.mp4" ∧
    entryId "https://example.com/a.mp4" ≠ entryId "https://example.com/b.mp4" :=
  ⟨by decide, entryId_deterministic_and_injective.2 _ _ (by decide)⟩

/-! ## Claim C3: upsert is last-write-wins on the compound key -/

theorem upsert_filter_key (cid eid nm ds ps vu : String) :
    ∀ s : Store, countKey s cid eid ≤ 1 →
      (upsertEntry cid eid nm ds ps vu s).filter
          (fun e => e.id == eid && e.catalogId == cid) =
        [⟨cid, eid, nm, ds, ps, vu⟩] := by
  intro s
  induction s with
  | nil =>
    intro _
    simp [upsertEntry, List.filter]
  | cons e rest ih =>
    intro h
    unfold upsertEntry
    by_cases hm : (e.id == eid && e.catalogId == cid) = true
    · simp only [hm, if_true]
      have hcount : countKey (e :: rest) cid eid = 1 + countKey rest cid eid := by
        unfold countKey
        simp [List.filter_cons, hm]
        omega
      have hrest : countKey rest cid eid = 0 := by
        unfold countKey at h hcount ⊢
        omega
      have hnone : rest.filter (fun e => e.id == eid && e.catalogId == cid) = [] :=
        List.length_eq_zero.mp hrest
      simp [List.filter_cons, hnone]
    · simp only [hm, Bool.false_eq_true, not_false_iff, if_false]
      have hcount : countKey (e :: rest) cid eid = countKey rest cid eid := by
        unfold countKey
        simp [List.filter_cons, hm]
      rw [List.filter_cons_of_neg (by simp [hm])]
      exact ih (by omega)

theorem upsert_other_key (cid eid nm ds ps vu cid' eid' : String)
    (hne : ¬(eid' = eid ∧ cid' = cid)) :
    ∀ s : Store, countKey (upsertEntry cid eid nm ds ps vu s) cid' eid' =
      countKey s cid' eid' := by
  intro s
  have hnew : ((⟨cid, eid, nm, ds, ps, vu⟩ : Entry).id == eid' &&
      (⟨cid, eid, nm, ds, ps, vu⟩ : Entry).catalogId == cid') = false := by
    simp only [Bool.and_eq_false_iff, beq_eq_false_iff_ne, ne_eq]
    by_cases h1 : eid = eid'
    · right
      intro h2
      exact hne ⟨h1.symm, h2.symm⟩
    · left
      exact h1
  induction s with
  | nil =>
    simp [upsertEntry, countKey, List.filter, hnew]
  | cons e rest ih =>
    unfold upsertEntry
    by_cases hm : (e.id == eid && e.catalogId == cid) = true
    · simp only [hm, if_true]
      have hold : (e.id == eid' && e.catalogId == cid') = false := by
        simp only [Bool.and_eq_true, beq_iff_eq] at hm
        simp only [Bool.and_eq_false_iff, beq_eq_false_iff_ne, ne_eq]
        by_cases h1 : e.id = eid'
        · right
          intro h2
          exact hne ⟨(h1.symm.trans hm.1).symm.symm ▸ rfl, (h2.symm.trans hm.2).symm.symm ▸ rfl⟩
        · left
          exact h1
      unfold countKey
      simp [List.filter_cons, hnew, hold]
    · simp only [hm, Bool.false_eq_true, not_false_iff, if_false]
      unfold countKey at ih ⊢
      simp only [List.filter_cons]
      by_cases ho : (e.id == eid' && e.catalogId == cid') = true
      · simp only [ho, if_true, cond_true, List.length_cons]
        rw [ih]
      · simp only [ho, Bool.false_eq_true, not_false_iff, cond_false]
        rw [if_neg (by simp [ho])]
        rw [if_neg (by simp [ho])]
        exact ih

/-- C3: upsert is last-write-wins on the compound key `(entryId, catalogId)`:
after `upsert(catalogId, mediaUrl, A)` followed by `upsert(catalogId,
mediaUrl, B)` the store holds exactly one Entry for that key, all of whose
fields come from `B`, and no key of the store ever acquires a duplicate. -/
theorem upsert_last_write_wins (s : Store) (cid u tA dA iA tB dB iB : String)
    (h : countKey s cid (entryId u) ≤ 1) :
    countKey (upsertEntry cid (entryId u) tB dB iB u
        (upsertEntry cid (entryId u) tA dA iA u s)) cid (entryId u) = 1 ∧
    (upsertEntry cid (entryId u) tB dB iB u
        (upsertEntry cid (entryId u) tA dA iA u s)).filter
        (fun e => e.id == entryId u && e.catalogId == cid) =
      [⟨cid, entryId u, tB, dB, iB, u⟩] ∧
    ∀ cid' eid', countKey s cid' eid' ≤ 1 →
      countKey (upsertEntry cid (entryId u) tB dB iB u
        (upsertEntry cid (entryId u) tA dA iA u s)) cid' eid' ≤ 1 := by
  have hA := upsert_filter_key cid (entryId u) tA dA iA u s h
  have h1 : countKey (upsertEntry cid (entryId u) tA dA iA u s) cid (entryId u) = 1 := by
    unfold countKey
    rw [hA]
    rfl
  have hB := upsert_filter_key cid (entryId u) tB dB iB u
      (upsertEntry cid (entryId u) tA dA iA u s) (by omega)
  have h2 : countKey (upsertEntry cid (entryId u) tB dB iB u
      (upsertEntry cid (entryId u) tA dA iA u s)) cid (entryId u) = 1 := by
    unfold countKey
    rw [hB]
    rfl
  refine ⟨h2, hB, ?_⟩
  intro cid' eid' hk
  by_cases hsame : eid' = entryId u ∧ cid' = cid
  · rcases hsame with ⟨rfl, rfl⟩
    omega
  · rw [upsert_other_key cid (entryId u) tB dB iB u cid' eid' hsame,
      upsert_other_key cid (entryId u) tA dA iA u cid' eid' hsame]
    exact hk

/-- Witness for C3: the double upsert applied to the empty store. -/
theorem upsert_last_write_wins_witness :
    countKey [] "catalog-example-com" (entryId "https://example.com/movie.mp4") ≤ 1 ∧
    (countKey (upsertEntry "catalog-example-com" (entryId "https://example.com/movie.mp4")
        "tB" "dB" "iB" "https://example.com/movie.mp4"
        (upsertEntry "catalog-example-com" (entryId "https://example.com/movie.mp4")
          "tA" "dA" "iA" "https://example.com/movie.mp4" []))
        "catalog-example-com" (entryId "https://example.com/movie.mp4") = 1 ∧
      (upsertEntry "catalog-example-com" (entryId "https://example.com/movie.mp4")
        "tB" "dB" "iB" "https://example.com/movie.mp4"
        (upsertEntry "catalog-example-com" (entryId "https://example.com/movie.mp4")
          "tA" "dA" "iA" "https://example.com/movie.mp4" [])).filter
          (fun e => e.id == entryId "https://example.com/movie.mp4" &&
            e.catalogId == "catalog-example-com") =
        [⟨"catalog-example-com", entryId "https://example.com/movie.mp4",
          "tB", "dB", "iB", "https://example.com/movie.mp4"⟩] ∧
      ∀ cid' eid', countKey [] cid' eid' ≤ 1 →
        countKey (upsertEntry "catalog-example-com" (entryId "https://example.com/movie.mp4")
          "tB" "dB" "iB" "https://example.com/movie.mp4"
          (upsertEntry "catalog-example-com" (entryId "https://example.com/movie.mp4")
            "tA" "dA" "iA" "https://example.com/movie.mp4" [])) cid' eid' ≤ 1) :=
  ⟨by decide,
   upsert_last_write_wins [] "catalog-example-com" "https://example.com/movie.mp4"
     "tA" "dA" "iA" "tB" "dB" "iB" (by decide)⟩

/-! ## Per-fetch event accounting -/

theorem fetchPageData_events (nav : String → Except String RawPage) (url : String)
    (d : Option PageData) (evs : List Ev) (h : fetchPageData nav url = (d, evs)) :
    fetchedUrls evs = [url] ∧ countOpens evs = 1 ∧ countCloses evs = 1 ∧
    evs.count Ev.browserLaunch = 0 ∧ evs.count Ev.browserClose = 0 := by
  unfold fetchPageData at h
  rcases hn : nav url with c | raw <;> rw [hn] at h <;>
    (injection h with h1 h2; subst h2;
     simp [fetchedUrls, countOpens, countCloses, List.count_cons])

theorem fetch_ok_raw (g : Graph) (url : String) (d : PageData) (evs : List Ev)
    (h : fetchPageData (navOf g) url = (some d, evs)) :
    ∃ raw, raw ∈ okPages g ∧ d = extract raw := by
  unfold fetchPageData at h
  rcases hn : navOf g url with c | raw
  · rw [hn] at h
    simp at h
  · rw [hn] at h
    refine ⟨raw, ?_, by injection h with h1 h2; injection h1 with h1; exact h1.symm⟩
    unfold navOf at hn
    rcases hf : g.find? (fun p => p.1 == url) with _ | p
    · rw [hf] at hn
      simp at hn
    · rw [hf] at hn
      have hn2 : p.2 = Except.ok raw := hn
      have hmem := List.mem_of_find?_eq_some hf
      unfold okPages
      apply List.mem_filterMap.mpr
      refine ⟨p, hmem, ?_⟩
      rw [hn2]

/-! ## Walk invariants -/

theorem scrapeWalk_invariants (g : Graph) (cid : String) :
    ∀ (pending visited : List String) (store : Store),
      (∀ u ∈ fetchedUrls (scrapeWalk g cid pending visited store).2.2, u ∉ visited) ∧
      (fetchedUrls (scrapeWalk g cid pending visited store).2.2).Nodup ∧
      (scrapeWalk g cid pending visited store).1 =
        (fetchedUrls (scrapeWalk g cid pending visited store).2.2).reverse ++ visited ∧
      countOpens (scrapeWalk g cid pending visited store).2.2 =
        countCloses (scrapeWalk g cid pending visited store).2.2 ∧
      (scrapeWalk g cid pending visited store).2.2.count Ev.browserLaunch = 0 ∧
      (scrapeWalk g cid pending visited store).2.2.count Ev.browserClose = 0 := by
  intro pending visited store
  induction pending, visited, store using scrapeWalk.induct g cid with
  | case1 visited store =>
    rw [scrapeWalk_nil]
    simp [fetchedUrls, countOpens, countCloses]
  | case2 visited store url rest hv ih =>
    rw [scrapeWalk_visited g cid url rest visited store hv]
    exact ih
  | case3 visited store url rest hv evs hf ih =>
    rw [scrapeWalk_fail g cid url rest visited store evs hv hf]
    obtain ⟨f1, f2, f3, f4, f5⟩ := fetchPageData_events (navOf g) url none evs hf
    obtain ⟨i1, i2, i3, i4, i5, i6⟩ := ih
    have hfe : fetchedUrls ((Ev.scrapeLog url :: evs) ++
        (scrapeWalk g cid rest (url :: visited) store).2.2) =
        url :: fetchedUrls (scrapeWalk g cid rest (url :: visited) store).2.2 := by
      simp only [fetchedUrls, List.filterMap_append, List.filterMap_cons]
      simp only [fetchedUrls] at f1
      rw [f1]
      rfl
    refine ⟨?_, ?_, ?_, ?_, ?_, ?_⟩
    · rw [hfe]
      intro u hu
      rcases List.mem_cons.mp hu with rfl | hu
      · exact hv
      · intro hvv
        exact i1 u hu (List.mem_cons_of_mem _ hvv)
    · rw [hfe]
      refine List.nodup_cons.mpr ⟨?_, i2⟩
      intro hmem
      exact i1 url hmem (List.mem_cons_self _ _)
    · rw [hfe]
      simp only [List.reverse_cons]
      rw [i3]
      simp
    · simp only [countOpens, countCloses, List.countP_append, List.countP_cons] at i4 ⊢
      simp only [countOpens, countCloses] at f2 f3
      simp only [f2, f3]
      omega
    · simp only [List.count_append, List.count_cons, f4, i5]
      simp
    · simp only [List.count_append, List.count_cons, f5, i6]
      simp
  | case4 visited store url rest hv data evs hf store1 ih =>
    have hs1 : store1 = data.videos.foldl (fun s v =>
        upsertEntry cid (entryId v) data.title data.description data.image v s) store := rfl
    rw [hs1] at ih
    rw [scrapeWalk_ok g cid url rest visited store data evs hv hf]
    obtain ⟨f1, f2, f3, f4, f5⟩ := fetchPageData_events (navOf g) url (some data) evs hf
    obtain ⟨i1, i2, i3, i4, i5, i6⟩ := ih
    have hfe : fetchedUrls ((Ev.scrapeLog url :: evs) ++
        (scrapeWalk g cid (data.subLinks ++ rest) (url :: visited)
          (data.videos.foldl (fun s v =>
            upsertEntry cid (entryId v) data.title data.description data.image v s) store)).2.2) =
        url :: fetchedUrls (scrapeWalk g cid (data.subLinks ++ rest) (url :: visited)
          (data.videos.foldl (fun s v =>
            upsertEntry cid (entryId v) data.title data.description data.image v s) store)).2.2 := by
      simp only [fetchedUrls, List.filterMap_append, List.filterMap_cons]
      simp only [fetchedUrls] at f1
      rw [f1]
      rfl
    refine ⟨?_, ?_, ?_, ?_, ?_, ?_⟩
    · rw [hfe]
      intro u hu
      rcases List.mem_cons.mp hu with rfl | hu
      · exact hv
      · intro hvv
        exact i1 u hu (List.mem_cons_of_mem _ hvv)
    · rw [hfe]
      refine List.nodup_cons.mpr ⟨?_, i2⟩
      intro hmem
      exact i1 url hmem (List.mem_cons_self _ _)
    · rw [hfe]
      simp only [List.reverse_cons]
      rw [i3]
      simp
    · simp only [countOpens, countCloses, List.countP_append, List.countP_cons] at i4 ⊢
      simp only [countOpens, countCloses] at f2 f3
      simp only [f2, f3]
      omega
    · simp only [List.count_append, List.count_cons, f4, i5]
      simp
    · simp only [List.count_append, List.count_cons, f5, i6]
      simp

/-! ## Concrete walk evaluations -/

theorem cycWalk_fetched :
    fetchedUrls (scrapeSite cycGraph ⟨"https://s.com/a", "catalog-s-com"⟩ []).2.2 =
      ["https://s.com/a", "https://s.com/b"] := by
  have hA : fetchPageData (navOf cycGraph) "https://s.com/a" =
      (some (extract cycPageA),
       [Ev.pageOpen "https://s.com/a", Ev.pageClose "https://s.com/a"]) := by rfl
  have hB : fetchPageData (navOf cycGraph) "https://s.com/b" =
      (some (extract cycPageB),
       [Ev.pageOpen "https://s.com/b", Ev.pageClose "https://s.com/b"]) := by rfl
  unfold scrapeSite
  rw [scrapeWalk_ok cycGraph "catalog-s-com" "https://s.com/a" [] [] []
      (extract cycPageA) _ (by simp) hA]
  rw [show (extract cycPageA).subLinks = ["https://s.com/b"] from rfl]
  rw [show (extract cycPageA).videos.foldl (fun s v =>
      upsertEntry "catalog-s-com" (entryId v) (extract cycPageA).title
        (extract cycPageA).description (extract cycPageA).image v s) [] = [] from rfl]
  rw [show (["https://s.com/b"] ++ [] : List String) = ["https://s.com/b"] from rfl]
  rw [scrapeWalk_ok cycGraph "catalog-s-com" "https://s.com/b" [] ["https://s.com/a"] []
      (extract cycPageB) _ (by simp) hB]
  rw [show (extract cycPageB).subLinks = ["https://s.com/a"] from rfl]
  rw [show (extract cycPageB).videos.foldl (fun s v =>
      upsertEntry "catalog-s-com" (entryId v) (extract cycPageB).title
        (extract cycPageB).description (extract cycPageB).image v s) [] = [] from rfl]
  rw [show (["https://s.com/a"] ++ [] : List String) = ["https://s.com/a"] from rfl]
  rw [scrapeWalk_visited cycGraph "catalog-s-com" "https://s.com/a" []
      ["https://s.com/b", "https://s.com/a"] [] (by simp)]
  rw [scrapeWalk_nil]
  rfl

theorem evilWalk_fetched :
    fetchedUrls (scrapeSite evilGraph ⟨"https://a.com/", "catalog-a-com"⟩ []).2.2 =
      ["https://a.com/", "https://a.com.evil.net/x"] := by
  have hA : fetchPageData (navOf evilGraph) "https://a.com/" =
      (some (extract evilPageA),
       [Ev.pageOpen "https://a.com/", Ev.pageClose "https://a.com/"]) := by rfl
  have hX : fetchPageData (navOf evilGraph) "https://a.com.evil.net/x" =
      (some (extract evilPageX),
       [Ev.pageOpen "https://a.com.evil.net/x", Ev.pageClose "https://a.com.evil.net/x"]) := by
    rfl
  unfold scrapeSite
  rw [scrapeWalk_ok evilGraph "catalog-a-com" "https://a.com/" [] [] []
      (extract evilPageA) _ (by simp) hA]
  rw [show (extract evilPageA).subLinks = ["https://a.com.evil.net/x"] from rfl]
  rw [show (extract evilPageA).videos.foldl (fun s v =>
      upsertEntry "catalog-a-com" (entryId v) (extract evilPageA).title
        (extract evilPageA).description (extract evilPageA).image v s) [] = [] from rfl]
  rw [show (["https://a.com.evil.net/x"] ++ [] : List String) =
      ["https://a.com.evil.net/x"] from rfl]
  rw [scrapeWalk_ok evilGraph "catalog-a-com" "https://a.com.evil.net/x" []
      ["https://a.com/"] [] (extract evilPageX) _ (by simp) hX]
  rw [show (extract evilPageX).subLinks = ([] : List String) from rfl]
  rw [show (extract evilPageX).videos.foldl (fun s v =>
      upsertEntry "catalog-a-com" (entryId v) (extract evilPageX).title
        (extract evilPageX).description (extract evilPageX).image v s) [] = [] from rfl]
  rw [show (([] : List String) ++ [] : List String) = [] from rfl]
  rw [scrapeWalk_nil]
  rfl

/-! ## Claim C2: cycle-safe termination, each URL fetched at most once -/

/-- C2: for every finite page graph — cyclic ones included — a walk from a
seed URL with a fresh visited set terminates (`scrapeWalk` is a total
function, justified by the well-founded measure `(unvisited, pending)`), and
the list of fetched URLs has no duplicates; on the concrete two-page cycle
A ↔ B the walk from A fetches exactly A and then B, once each. -/
theorem walk_terminates_and_fetches_each_url_once :
    (∀ (g : Graph) (site : Site) (store : Store),
      (fetchedUrls (scrapeSite g site store).2.2).Nodup) ∧
    fetchedUrls (scrapeSite cycGraph ⟨"https://s.com/a", "catalog-s-com"⟩ []).2.2 =
      ["https://s.com/a", "https://s.com/b"] :=
  ⟨fun g site store => (scrapeWalk_invariants g site.id [site.url] [] store).2.1,
   cycWalk_fetched⟩

/-! ## Claim C5: which links the crawler follows -/

theorem extract_subLinks_prefixed (p : RawPage) :
    ∀ l ∈ (extract p).subLinks, startsWithStr l p.origin = true := by
  intro l hl
  unfold extract at hl
  simp only [List.mem_filter] at hl
  exact hl.2

theorem scrapeWalk_provenance (g : Graph) (cid : String) :
    ∀ (pending visited : List String) (store : Store),
      ∀ u ∈ fetchedUrls (scrapeWalk g cid pending visited store).2.2,
        u ∈ pending ∨ ∃ raw, raw ∈ okPages g ∧ u ∈ (extract raw).subLinks := by
  intro pending visited store
  induction pending, visited, store using scrapeWalk.induct g cid with
  | case1 visited store =>
    rw [scrapeWalk_nil]
    simp [fetchedUrls]
  | case2 visited store url rest hv ih =>
    rw [scrapeWalk_visited g cid url rest visited store hv]
    intro u hu
    rcases ih u hu with hm | hex
    · exact Or.inl (List.mem_cons_of_mem _ hm)
    · exact Or.inr hex
  | case3 visited store url rest hv evs hf ih =>
    rw [scrapeWalk_fail g cid url rest visited store evs hv hf]
    obtain ⟨f1, _, _, _, _⟩ := fetchPageData_events (navOf g) url none evs hf
    intro u hu
    simp only [fetchedUrls, List.filterMap_append] at hu
    simp only [fetchedUrls] at f1
    rw [List.filterMap_cons] at hu
    simp only [f1] at hu
    rcases List.mem_append.mp hu with hm | hm
    · simp only [List.mem_singleton] at hm
      rcases hm with rfl
      exact Or.inl (List.mem_cons_self _ _)
    · rcases ih u hm with hmm | hex
      · exact Or.inl (List.mem_cons_of_mem _ hmm)
      · exact Or.inr hex
  | case4 visited store url rest hv data evs hf store1 ih =>
    have hs1 : store1 = data.videos.foldl (fun s v =>
        upsertEntry cid (entryId v) data.title data.description data.image v s) store := rfl
    rw [hs1] at ih
    rw [scrapeWalk_ok g cid url rest visited store data evs hv hf]
    obtain ⟨f1, _, _, _, _⟩ := fetchPageData_events (navOf g) url (some data) evs hf
    obtain ⟨raw, hraw, hdata⟩ := fetch_ok_raw g url data evs hf
    intro u hu
    simp only [fetchedUrls, List.filterMap_append] at hu
    simp only [fetchedUrls] at f1
    rw [List.filterMap_cons] at hu
    simp only [f1] at hu
    rcases List.mem_append.mp hu with hm | hm
    · simp only [List.mem_singleton] at hm
      rcases hm with rfl
      exact Or.inl (List.mem_cons_self _ _)
    · rcases ih u hm with hmm | hex
      · rcases List.mem_append.mp hmm with hsub | hrest
        · exact Or.inr ⟨raw, hraw, hdata ▸ hsub⟩
        · exact Or.inl (List.mem_cons_of_mem _ hrest)
      · exact Or.inr hex

/-- C5 (amended): the crawler only follows links that pass the source's
`href.startsWith(location.origin)` check: every URL fetched during a walk
is the seed itself or a sub-link of a successfully fetched page whose URL
string starts with that page's origin string.  (The original claim — that
every followed link has the same scheme+host+port origin as its page — is
refuted by `sameOrigin_filter_counterexample`.) -/
theorem walk_follows_only_origin_prefixed_links (g : Graph) (site : Site) (store : Store) :
    ∀ u ∈ fetchedUrls (scrapeSite g site store).2.2,
      u = site.url ∨ ∃ raw, raw ∈ okPages g ∧ u ∈ (extract raw).subLinks ∧
        startsWithStr u raw.origin = true := by
  intro u hu
  rcases scrapeWalk_provenance g site.id [site.url] [] store u hu with hm | ⟨raw, hraw, hsub⟩
  · exact Or.inl (List.mem_singleton.mp hm)
  · exact Or.inr ⟨raw, hraw, hsub, extract_subLinks_prefixed raw u hsub⟩

/-- Counterexample to C5 as stated: on `evilGraph` the walk seeded at
`https://a.com/` fetches `https://a.com.evil.net/x`, a link queued from the
seed page even though its scheme+host+port origin differs from the page's —
the source's prefix check is not a same-origin check. -/
theorem sameOrigin_filter_counterexample :
    "https://a.com.evil.net/x" ∈ (extract evilPageA).subLinks ∧
    fetchedUrls (scrapeSite evilGraph ⟨"https://a.com/", "catalog-a-com"⟩ []).2.2 =
      ["https://a.com/", "https://a.com.evil.net/x"] ∧
    urlOrigin "https://a.com.evil.net/x" ≠ urlOrigin "https://a.com/" ∧
    urlOrigin "https://a.com/" = evilPageA.origin :=
  ⟨by decide, evilWalk_fetched, by decide, by decide⟩

/-- Witness for the amended C5 at the concrete evil world. -/
theorem walk_follows_only_origin_prefixed_links_witness :
    "https://a.com.evil.net/x" ∈
      fetchedUrls (scrapeSite evilGraph ⟨"https://a.com/", "catalog-a-com"⟩ []).2.2 ∧
    ("https://a.com.evil.net/x" = "https://a.com/" ∨
      ∃ raw, raw ∈ okPages evilGraph ∧
        "https://a.com.evil.net/x" ∈ (extract raw).subLinks ∧
        startsWithStr "https://a.com.evil.net/x" raw.origin = true) := by
  have hmem : "https://a.com.evil.net/x" ∈
      fetchedUrls (scrapeSite evilGraph ⟨"https://a.com/", "catalog-a-com"⟩ []).2.2 := by
    rw [evilWalk_fetched]
    simp
  exact ⟨hmem, walk_follows_only_origin_prefixed_links evilGraph
    ⟨"https://a.com/", "catalog-a-com"⟩ [] "https://a.com.evil.net/x" hmem⟩

/-! ## Refresh-cycle bookkeeping -/

theorem refresh_fold_store (g : Graph) :
    ∀ (sites : List Site) (store : Store) (evs : List Ev),
      (sites.foldl (fun acc site =>
        let w := scrapeSite g site acc.1
        (w.2.1, acc.2 ++ w.2.2)) (store, evs)).1 =
      sites.foldl (fun st site => (scrapeSite g site st).2.1) store := by
  intro sites
  induction sites with
  | nil => intro store evs; rfl
  | cons s rest ih =>
    intro store evs
    simp only [List.foldl_cons]
    exact ih _ _

theorem refresh_fold_events (g : Graph) :
    ∀ (sites : List Site) (store : Store) (evs : List Ev),
      (countOpens evs = countCloses evs →
        countOpens (sites.foldl (fun acc site =>
          let w := scrapeSite g site acc.1
          (w.2.1, acc.2 ++ w.2.2)) (store, evs)).2 =
        countCloses (sites.foldl (fun acc site =>
          let w := scrapeSite g site acc.1
          (w.2.1, acc.2 ++ w.2.2)) (store, evs)).2) ∧
      (sites.foldl (fun acc site =>
          let w := scrapeSite g site acc.1
          (w.2.1, acc.2 ++ w.2.2)) (store, evs)).2.count Ev.browserLaunch =
        evs.count Ev.browserLaunch ∧
      (sites.foldl (fun acc site =>
          let w := scrapeSite g site acc.1
          (w.2.1, acc.2 ++ w.2.2)) (store, evs)).2.count Ev.browserClose =
        evs.count Ev.browserClose := by
  intro sites
  induction sites with
  | nil => intro store evs; exact ⟨fun h => h, rfl, rfl⟩
  | cons s rest ih =>
    intro store evs
    simp only [List.foldl_cons]
    obtain ⟨_, _, w3, w4, w5, w6⟩ :=
      scrapeWalk_invariants g s.id [s.url] [] store
    obtain ⟨ih1, ih2, ih3⟩ := ih (scrapeSite g s store).2.1
      (evs ++ (scrapeSite g s store).2.2)
    refine ⟨?_, ?_, ?_⟩
    · intro h
      apply ih1
      unfold scrapeSite
      simp only [countOpens, countCloses, List.countP_append] at h w4 ⊢
      omega
    · rw [ih2, List.count_append]
      unfold scrapeSite
      omega
    · rw [ih3, List.count_append]
      unfold scrapeSite
      omega

/-! ## Claim C7: rendering contexts never leak -/

/-- C7: on every exit path of `fetchPageData` the rendering context acquired
by `browser.newPage()` is released by `page.close()` exactly once — one
`pageOpen` and one `pageClose` per fetch — and consequently over a whole
refresh cycle the number of contexts acquired equals the number released. -/
theorem rendering_context_released_on_every_path :
    (∀ (nav : String → Except String RawPage) (url : String),
      countOpens (fetchPageData nav url).2 = 1 ∧
      countCloses (fetchPageData nav url).2 = 1) ∧
    ∀ (g : Graph) (sites : List Site) (store : Store),
      countOpens (refreshScraping g sites store).2 =
        countCloses (refreshScraping g sites store).2 := by
  constructor
  · intro nav url
    unfold fetchPageData
    rcases nav url with c | raw <;> simp [countOpens, countCloses]
  · intro g sites store
    unfold refreshScraping
    obtain ⟨h1, _, _⟩ := refresh_fold_events g sites store []
    simp only [countOpens, countCloses, List.countP_append, List.countP_cons] at h1 ⊢
    have := h1 rfl
    simp
    omega

/-! ## Claim C4: per-site failure isolation, browser always released -/

theorem scrapeWalk_fail_seed (g : Graph) (cid url : String) (store : Store) (c : String)
    (hn : navOf g url = Except.error c) :
    (scrapeWalk g cid [url] [] store).2.1 = store := by
  have hf : fetchPageData (navOf g) url =
      (none, [Ev.pageOpen url, Ev.fetchError url c, Ev.pageClose url]) := by
    unfold fetchPageData
    rw [hn]
  rw [scrapeWalk_fail g cid url [] [] store _ (by simp) hf]
  rw [scrapeWalk_nil]

/-- C4: for every registered-site list, a site whose fetch fails contributes
nothing: `refresh()` over `pre ++ [failing] ++ post` produces the same store
as over `pre ++ post`, and the single browser launched at the start of a
cycle is closed at the end of that cycle — exactly one launch and one close,
the close being the trace's last event — regardless of per-site failures. -/
theorem refresh_isolates_failures_and_releases_browser (g : Graph)
    (pre post : List Site) (s2 : Site) (store : Store) (c : String)
    (hn : navOf g s2.url = Except.error c) :
    (refreshScraping g (pre ++ s2 :: post) store).1 =
      (refreshScraping g (pre ++ post) store).1 ∧
    (refreshScraping g (pre ++ s2 :: post) store).2.count Ev.browserLaunch = 1 ∧
    (refreshScraping g (pre ++ s2 :: post) store).2.count Ev.browserClose = 1 ∧
    (refreshScraping g (pre ++ s2 :: post) store).2.getLast? = some Ev.browserClose := by
  refine ⟨?_, ?_, ?_, ?_⟩
  · unfold refreshScraping
    simp only
    rw [refresh_fold_store, refresh_fold_store]
    rw [List.foldl_append, List.foldl_append, List.foldl_cons]
    congr 1
    unfold scrapeSite
    exact scrapeWalk_fail_seed g s2.id s2.url _ c hn
  · unfold refreshScraping
    obtain ⟨_, h2, _⟩ := refresh_fold_events g (pre ++ s2 :: post) store []
    simp only [List.count_cons, List.count_append, h2]
    simp
  · unfold refreshScraping
    obtain ⟨_, _, h3⟩ := refresh_fold_events g (pre ++ s2 :: post) store []
    simp only [List.count_cons, List.count_append, h3]
    simp
  · unfold refreshScraping
    simp only
    generalize ((pre ++ s2 :: post).foldl (fun acc site =>
      let w := scrapeSite g site acc.1
      (w.2.1, acc.2 ++ w.2.2)) (store, ([] : List Ev))).2 = tr
    show ((Ev.browserLaunch :: tr) ++ [Ev.browserClose]).getLast? = some Ev.browserClose
    rw [List.getLast?_concat]

/-- Witness for C4: a three-site refresh whose middle site fails to resolve. -/
theorem refresh_isolates_failures_witness :
    navOf [] "https://two.example/" = Except.error "net::ERR_NAME_NOT_RESOLVED" ∧
    ((refreshScraping [] [⟨"https://one.example/", "c1"⟩, ⟨"https://two.example/", "c2"⟩,
        ⟨"https://three.example/", "c3"⟩] []).1 =
      (refreshScraping [] [⟨"https://one.example/", "c1"⟩,
        ⟨"https://three.example/", "c3"⟩] []).1 ∧
     (refreshScraping [] [⟨"https://one.example/", "c1"⟩, ⟨"https://two.example/", "c2"⟩,
        ⟨"https://three.example/", "c3"⟩] []).2.count Ev.browserLaunch = 1 ∧
     (refreshScraping [] [⟨"https://one.example/", "c1"⟩, ⟨"https://two.example/", "c2"⟩,
        ⟨"https://three.example/", "c3"⟩] []).2.count Ev.browserClose = 1 ∧
     (refreshScraping [] [⟨"https://one.example/", "c1"⟩, ⟨"https://two.example/", "c2"⟩,
        ⟨"https://three.example/", "c3"⟩] []).2.getLast? = some Ev.browserClose) :=
  ⟨rfl, refresh_isolates_failures_and_releases_browser []
    [⟨"https://one.example/", "c1"⟩] [⟨"https://three.example/", "c3"⟩]
    ⟨"https://two.example/", "c2"⟩ [] "net::ERR_NAME_NOT_RESOLVED" rfl⟩

/-! ## Claim C6: the page fetch never raises past its boundary -/

/-- C6: `fetchPageData` is total over every navigation oracle: it returns the
extraction result on success, and on any navigation/evaluation error it
returns the `null` failure signal together with the logged record carrying
the URL and the cause; the walker treats that failure as "no data, continue"
— the failing URL is marked visited, the store is untouched by it, and the
walk proceeds with the remaining work. -/
theorem fetch_never_raises (nav : String → Except String RawPage) (url : String) :
    (∀ raw, nav url = Except.ok raw →
      fetchPageData nav url = (some (extract raw), [Ev.pageOpen url, Ev.pageClose url])) ∧
    (∀ c, nav url = Except.error c →
      fetchPageData nav url = (none, [Ev.pageOpen url, Ev.fetchError url c, Ev.pageClose url])) ∧
    (∀ (g : Graph) (cid : String) (rest visited : List String) (store : Store) (evs : List Ev),
      url ∉ visited → fetchPageData (navOf g) url = (none, evs) →
      (scrapeWalk g cid (url :: rest) visited store).1 =
        (scrapeWalk g cid rest (url :: visited) store).1 ∧
      (scrapeWalk g cid (url :: rest) visited store).2.1 =
        (scrapeWalk g cid rest (url :: visited) store).2.1) := by
  refine ⟨?_, ?_, ?_⟩
  · intro raw h
    unfold fetchPageData
    rw [h]
  · intro c h
    unfold fetchPageData
    rw [h]
  · intro g cid rest visited store evs hv hf
    rw [scrapeWalk_fail g cid url rest visited store evs hv hf]
    exact ⟨rfl, rfl⟩

/-- Witness for C6: a nav oracle that always times out, and the walker
continuing past an unresolvable seed. -/
theorem fetch_never_raises_witness :
    fetchPageData (fun _ => Except.error "timeout") "https://x.example/" =
      (none, [Ev.pageOpen "https://x.example/",
        Ev.fetchError "https://x.example/" "timeout", Ev.pageClose "https://x.example/"]) ∧
    ((scrapeWalk [] "c" ["https://x.example/"] [] []).1 =
        (scrapeWalk [] "c" [] ["https://x.example/"] []).1 ∧
      (scrapeWalk [] "c" ["https://x.example/"] [] []).2.1 =
        (scrapeWalk [] "c" [] ["https://x.example/"] []).2.1) :=
  ⟨(fetch_never_raises (fun _ => Except.error "timeout") "https://x.example/").2.1
      "timeout" rfl,
   (fetch_never_raises (navOf []) "https://x.example/").2.2 [] "c" [] [] [] _
      (by simp) rfl⟩

/-! ## Claim C8: registration derives the catalog id and re-crawls everything -/

/-- C8: registering a URL derives `catalogId` deterministically from the
hostname `new URL(url)` yields, with dots replaced by dashes
(`https://example.com` ↦ `catalog-example-com`), appends `{url, catalogId}`
to the in-memory site list, and triggers a refresh over the WHOLE updated
list — previously registered sites included — whose store and events the
request returns. -/
theorem addSite_registers_and_recrawls_whole_list (g : Graph) (st : ServerState)
    (url host : String) (hp : urlHostname url = HostParse.host host) :
    addSite g st (some url) =
      some (RegResponse.ok ("catalog-" ++ dashHost host),
        ⟨st.sites ++ [⟨url, "catalog-" ++ dashHost host⟩],
         (refreshScraping g (st.sites ++ [⟨url, "catalog-" ++ dashHost host⟩]) st.store).1⟩,
        (refreshScraping g (st.sites ++ [⟨url, "catalog-" ++ dashHost host⟩]) st.store).2) ∧
    urlHostname "https://example.com" = HostParse.host "example.com" ∧
    "catalog-" ++ dashHost "example.com" = "catalog-example-com" := by
  have hne : ¬url = "" := by
    intro h
    rw [h] at hp
    have : urlHostname "" = HostParse.invalid := rfl
    rw [this] at hp
    exact HostParse.noConfusion hp
  unfold addSite
  simp only [if_neg hne, hp]
  exact ⟨trivial, rfl, rfl⟩

/-- Witness for C8: registering `https://example.com` on a fresh server. -/
theorem addSite_registers_witness :
    urlHostname "https://example.com" = HostParse.host "example.com" ∧
    (addSite [] ⟨[], []⟩ (some "https://example.com") =
        some (RegResponse.ok ("catalog-" ++ dashHost "example.com"),
          ⟨[⟨"https://example.com", "catalog-" ++ dashHost "example.com"⟩],
           (refreshScraping []
             [⟨"https://example.com", "catalog-" ++ dashHost "example.com"⟩] []).1⟩,
          (refreshScraping []
            [⟨"https://example.com", "catalog-" ++ dashHost "example.com"⟩] []).2) ∧
      "catalog-" ++ dashHost "example.com" = "catalog-example-com") := by
  have h := addSite_registers_and_recrawls_whole_list [] ⟨[], []⟩
    "https://example.com" "example.com" rfl
  exact ⟨rfl, h.1, h.2.2⟩

/-! ## Claim C9: validation of registration input -/

/-- C10: both query handlers are total and keyed by `entryId` alone
(`findOne({ id })` ignores `catalogId`): when an entry with the queried id
exists the stream handler returns exactly one stream carrying that entry's
stored `videoUrl` and the meta handler returns its display metadata; when
none exists they return the empty stream list resp. the empty response; and
rewriting every record's `catalogId` changes neither handler's answer. -/
theorem handlers_total_and_keyed_by_id_alone (s : Store) (qid : String) :
    (findOneById s qid = none →
      streamHandler s qid = [] ∧ metaHandler s qid = none ∧ ∀ e ∈ s, e.id ≠ qid) ∧
    (∀ e, findOneById s qid = some e →
      e ∈ s ∧ e.id = qid ∧
      streamHandler s qid = [⟨e.videoUrl⟩] ∧ (streamHandler s qid).length = 1 ∧
      metaHandler s qid = some ⟨e.id, e.name, e.poster, e.description⟩) ∧
    ((∃ e ∈ s, e.id = qid) → ∃ e, findOneById s qid = some e) ∧
    ∀ f : String → String,
      streamHandler (s.map fun e => { e with catalogId := f e.catalogId }) qid =
        streamHandler s qid ∧
      metaHandler (s.map fun e => { e with catalogId := f e.catalogId }) qid =
        metaHandler s qid := by
  refine ⟨?_, ?_, ?_, ?_⟩
  · intro h
    refine ⟨by unfold streamHandler; rw [h], by unfold metaHandler; rw [h], ?_⟩
    intro e he heq
    have := List.find?_eq_none.mp h e he
    simp [heq] at this
  · intro e h
    refine ⟨List.mem_of_find?_eq_some h, ?_, ?_, ?_, ?_⟩
    · have := List.find?_some h
      simpa using this
    · unfold streamHandler
      rw [h]
    · unfold streamHandler
      rw [h]
      rfl
    · unfold metaHandler
      rw [h]
  · intro ⟨e, he, heq⟩
    rcases ho : findOneById s qid with _ | e2
    · exfalso
      have := List.find?_eq_none.mp ho e he
      simp [heq] at this
    · exact ⟨e2, rfl⟩
  · intro f
    have hfind : findOneById (s.map fun e => { e with catalogId := f e.catalogId }) qid =
        Option.map (fun e => { e with catalogId := f e.catalogId }) (findOneById s qid) := by
      unfold findOneById
      rw [List.find?_map]
      rfl
    constructor
    · unfold streamHandler
      rw [hfind]
      rcases findOneById s qid with _ | e <;> rfl
    · unfold metaHandler
      rw [hfind]
      rcases findOneById s qid with _ | e <;> rfl

/-- Witness for C10 on a one-entry store queried by its id and by a missing
id. -/
theorem handlers_total_witness :
    findOneById [⟨"c1", "id1", "n", "d", "p", "v"⟩] "id1" =
      some ⟨"c1", "id1", "n", "d", "p", "v"⟩ ∧
    (streamHandler [⟨"c1", "id1", "n", "d", "p", "v"⟩] "id1" = [⟨"v"⟩] ∧
      metaHandler [⟨"c1", "id1", "n", "d", "p", "v"⟩] "id1" =
        some ⟨"id1", "n", "p", "d"⟩) ∧
    (findOneById [⟨"c1", "id1", "n", "d", "p", "v"⟩] "zzz" = none ∧
      streamHandler [⟨"c1", "id1", "n", "d", "p", "v"⟩] "zzz" = []) := by
  have h := (handlers_total_and_keyed_by_id_alone
    [⟨"c1", "id1", "n", "d", "p", "v"⟩] "id1").2.1
    ⟨"c1", "id1", "n", "d", "p", "v"⟩ (by decide)
  have h2 := (handlers_total_and_keyed_by_id_alone
    [⟨"c1", "id1", "n", "d", "p", "v"⟩] "zzz").1 (by decide)
  exact ⟨by decide, ⟨h.2.2.1, h.2.2.2.2⟩, ⟨by decide, h2.1⟩⟩
